import Mathlib

/-!
Shallow embedding of the GitAcrown/Analog repository (economy, gambling and
game-tools cogs) for checking the natural-language specification.

Modelling conventions, chosen once for the whole file:
* Python ints are `ℤ` (unbounded, as in Python), user/channel ids are `ℕ`.
* `datetime.now().timestamp()` float values are modelled as `ℚ`; Python
  `int(x)` truncation toward zero is `pyTrunc`, Python `round` (banker's
  rounding, half-to-even) is `pyRound`.  Float rounding error is not
  modelled: all arithmetic is exact, matching the float computation except
  at astronomically large values or at representation boundaries.
* A per-guild SQLite table is an association list.  `INSERT OR IGNORE` is
  an insert guarded by a key-presence test; `UPDATE ... SET balance`
  enforces the `CHECK (balance >= 0)` column constraint of the `accounts`
  table, failing atomically (no row touched) when violated.
* A raised Python exception is an `Option EconError` in the result; the
  source raises before performing any further database writes, so on error
  the returned state is the state reached at the raise point.
* The Sqids id `Sqids().encode([int(ts), user_id, abs(amount)])` is a
  reversible (injective) encoding of the number triple, so it is modelled
  by the triple itself (`TxId`).
-/

namespace Analog

/-- Python `int(x)` on a float/rational: truncation toward zero. -/
def pyTrunc (q : ℚ) : ℤ := q.num.tdiv q.den

/-- Python `round(x)` with an integral result: round half to even. -/
def pyRound (q : ℚ) : ℤ :=
  if Int.fract q < 1/2 then ⌊q⌋
  else if Int.fract q > 1/2 then ⌊q⌋ + 1
  else if ⌊q⌋ % 2 = 0 then ⌊q⌋ else ⌊q⌋ + 1

/-- Transaction id, `Transaction.__get_id`:
`Sqids().encode([int(self.timestamp), self.user.id, abs(self.amount)])`.
Sqids is a reversible short-id scheme, hence modelled by the encoded
triple. -/
structure TxId where
  sec : ℤ
  user : ℕ
  absAmount : ℕ
deriving DecidableEq, Repr

def mkTxId (ts : ℚ) (uid : ℕ) (amount : ℤ) : TxId :=
  ⟨pyTrunc ts, uid, amount.natAbs⟩

/-- One row of the `transactions` table
(`id, timestamp, amount, reason, user_id`). -/
structure Tx where
  id : TxId
  timestamp : ℚ
  amount : ℤ
  reason : String
  userId : ℕ
deriving DecidableEq, Repr

/-- `Transaction.__init__`: the id is derived from timestamp, user and
absolute amount. -/
def mkTx (ts : ℚ) (uid : ℕ) (amount : ℤ) (reason : String) : Tx :=
  ⟨mkTxId ts uid amount, ts, amount, reason, uid⟩

abbrev TxTable := List Tx

/-- `INSERT OR IGNORE INTO transactions` (`Transaction.__create_if_not_exists`):
inserts only when no row with the same primary-key id exists. -/
def txInsertOrIgnore (t : Tx) (table : TxTable) : TxTable :=
  if table.any (fun r => decide (r.id = t.id)) then table else t :: table

/-- The `accounts` table: `user_id INTEGER PRIMARY KEY, balance INTEGER
CHECK (balance >= 0)`. -/
abbrev AccountsTable := List (ℕ × ℤ)

/-- `UPDATE accounts SET balance = v WHERE user_id = uid`. -/
def updateAcc (uid : ℕ) (v : ℤ) (table : AccountsTable) : AccountsTable :=
  table.map (fun p => if p.1 = uid then (uid, v) else p)

/-- Error distinguishing the raising layer: a plain Python `ValueError`
raised by the ledger code, versus a violation of the SQL
`CHECK (balance >= 0)` column constraint raised by the storage engine. -/
inductive EconError where
  | valueError (msg : String)
  | checkViolation (msg : String)
deriving DecidableEq, Repr

/-- Per-guild economy store: the `accounts` and `transactions` tables. -/
structure EconState where
  accounts : AccountsTable
  transactions : TxTable
deriving DecidableEq, Repr

/-- Result of one ledger operation: the state after the operation (equal to
the input state when the operation raised before writing), the raised
exception if any, and the created transaction if any. -/
structure OpResult where
  state : EconState
  error : Option EconError
  tx : Option Tx
deriving DecidableEq, Repr

/-- `Account.__create_if_not_exists`:
`INSERT OR IGNORE INTO accounts VALUES (user_id, DefaultBalance)`; the
insert is subject to the `CHECK (balance >= 0)` constraint.  This is the
whole stored effect of `Economy.get_account` / `Account.__init__`. -/
def createAccount (s : EconState) (uid : ℕ) (defaultBalance : ℤ) : OpResult :=
  if (s.accounts.lookup uid).isSome then ⟨s, none, none⟩
  else if defaultBalance < 0 then ⟨s, some (.checkViolation "CHECK balance >= 0"), none⟩
  else ⟨⟨s.accounts ++ [(uid, defaultBalance)], s.transactions⟩, none, none⟩

/-- `Account._set_balance`: reads the current balance, executes
`UPDATE accounts SET balance = value` (fails atomically when
`value < 0` by the column constraint), then constructs a `Transaction`
with the signed delta, whose constructor performs
`INSERT OR IGNORE INTO transactions`. -/
def setBalanceRaw (s : EconState) (uid : ℕ) (value : ℤ) (ts : ℚ) (reason : String) :
    OpResult :=
  match s.accounts.lookup uid with
  | none => ⟨s, some (.valueError "no account row"), none⟩
  | some current =>
    if value < 0 then ⟨s, some (.checkViolation "CHECK balance >= 0"), none⟩
    else
      let t := mkTx ts uid (value - current) reason
      ⟨⟨updateAcc uid value s.accounts, txInsertOrIgnore t s.transactions⟩, none, some t⟩

/-- `Account.set`: rejects a negative target with `ValueError`, otherwise
`_set_balance(value)`. -/
def accountSet (s : EconState) (uid : ℕ) (value : ℤ) (ts : ℚ) (reason : String) :
    OpResult :=
  if value < 0 then ⟨s, some (.valueError "Le solde du compte ne peut pas etre negatif"), none⟩
  else setBalanceRaw s uid value ts reason

/-- `Account.deposit`: rejects a negative amount with `ValueError`,
otherwise `_set_balance(balance + amount)`. -/
def accountDeposit (s : EconState) (uid : ℕ) (amount : ℤ) (ts : ℚ) (reason : String) :
    OpResult :=
  if amount < 0 then ⟨s, some (.valueError "Le montant ne peut pas etre negatif"), none⟩
  else
    match s.accounts.lookup uid with
    | none => ⟨s, some (.valueError "no account row"), none⟩
    | some b => setBalanceRaw s uid (b + amount) ts reason

/-- `Account.withdraw`: a negative amount is replaced by its absolute
value, then `_set_balance(balance - amount)` with no funds check at this
layer (only the storage `CHECK` can reject it). -/
def accountWithdraw (s : EconState) (uid : ℕ) (amount : ℤ) (ts : ℚ) (reason : String) :
    OpResult :=
  let a := if amount < 0 then |amount| else amount
  match s.accounts.lookup uid with
  | none => ⟨s, some (.valueError "no account row"), none⟩
  | some b => setBalanceRaw s uid (b - a) ts reason

/-- `Account.cancel`: raises `ValueError` when no transaction row of this
user matches the given transaction id (`get_transactions` rebuilds each
row's id from its stored timestamp, user and amount, and the membership
test compares ids); otherwise `_set_balance(balance - transaction.amount)`. -/
def accountCancel (s : EconState) (uid : ℕ) (t : Tx) (ts : ℚ) : OpResult :=
  if s.transactions.any
      (fun r => decide (r.userId = uid ∧ mkTxId r.timestamp r.userId r.amount = t.id)) then
    match s.accounts.lookup uid with
    | none => ⟨s, some (.valueError "no account row"), none⟩
    | some b => setBalanceRaw s uid (b - t.amount) ts "Annule la transaction"
  else ⟨s, some (.valueError "La transaction n est pas liee a ce compte"), none⟩

/-- Stored-balance invariant maintained by the `CHECK (balance >= 0)`
constraint. -/
def allNonneg (s : EconState) : Prop := ∀ p ∈ s.accounts, 0 ≤ p.2

instance (s : EconState) : Decidable (allNonneg s) := by
  unfold allNonneg; infer_instance

/-! ### Daily stipend (`Economy._bank_daily`) -/

/-- The decay-reduced stipend: `ignore_part = 0.1 * dailylimit`; when
`balance > ignore_part`, `redux = (balance - ignore_part) / dailylimit`
and the amount becomes `round(dailyamount * (1 - redux))`; otherwise the
nominal amount is kept. -/
def dailyReducedAmount (dailyAmount dailyLimit bal : ℤ) : ℤ :=
  if (bal : ℚ) > (dailyLimit : ℚ) / 10 then
    pyRound ((dailyAmount : ℚ) *
      (1 - ((bal : ℚ) - (dailyLimit : ℚ) / 10) / (dailyLimit : ℚ)))
  else dailyAmount

/-- Which reply the `/daily` handler sends. -/
inductive DailyOutcome where
  | notAvailable
  | alreadyClaimed
  | limitReached
  | tooSmall
  | granted (amount : ℤ)
  | storageError
deriving DecidableEq, Repr

/-- Result of `/daily`: the economy state, the value of the user's
`LastDaily` condition, and the reply sent. -/
structure DailyRes where
  state : EconState
  lastDaily : String
  outcome : DailyOutcome
deriving DecidableEq, Repr

/-- `Economy._bank_daily`: `get_account` (lazily creating the row), the
`DailyAmount <= 0 or DailyLimit <= 0` guard, the decay reduction, the
`LastDaily` condition check, the balance-cap check, the rounds-to-zero
check, and finally the deposit followed by setting `LastDaily` to today.
`lastDaily` is the stored value of the user's `LastDaily` condition
(defaulting to the empty string). -/
def bankDaily (s₀ : EconState) (uid : ℕ) (dailyAmount dailyLimit defaultBalance : ℤ)
    (today lastDaily : String) (ts : ℚ) : DailyRes :=
  match createAccount s₀ uid defaultBalance with
  | ⟨s, some _, _⟩ => ⟨s, lastDaily, .storageError⟩
  | ⟨s, none, _⟩ =>
    if dailyAmount ≤ 0 ∨ dailyLimit ≤ 0 then ⟨s, lastDaily, .notAvailable⟩
    else
      match s.accounts.lookup uid with
      | none => ⟨s, lastDaily, .storageError⟩
      | some bal =>
        let amt := dailyReducedAmount dailyAmount dailyLimit bal
        if lastDaily = today then ⟨s, lastDaily, .alreadyClaimed⟩
        else if bal ≥ dailyLimit then ⟨s, lastDaily, .limitReached⟩
        else if amt ≤ 0 then ⟨s, lastDaily, .tooSmall⟩
        else
          match accountDeposit s uid amt ts ("Aide quotidienne du " ++ today) with
          | ⟨s', none, _⟩ => ⟨s', today, .granted amt⟩
          | ⟨s', some _, _⟩ => ⟨s', lastDaily, .storageError⟩

/-! ### Gambling (`gambling.py`) -/

/-- One row of the `bettings` table (`channel_id` is the primary key; the
comma-joined `choices` text column is modelled by its split form, valid
because choices are created from comma-separated input and cannot contain
a comma). -/
structure BettingRow where
  channelId : ℕ
  title : String
  choices : List String
  messageId : ℕ
  minimalBet : ℤ
  authorId : ℕ
deriving DecidableEq, Repr

/-- One row of the `bets` table. -/
structure BetRow where
  userId : ℕ
  channelId : ℕ
  choice : String
  amount : ℤ
deriving DecidableEq, Repr

/-- Bot-visible state for the gambling cog: the two gambling tables, the
economy store they pay into, plus the sets of guild members and existing
channels (a departed member makes `guild.get_member` return `None`). -/
structure BotState where
  bettings : List BettingRow
  bets : List BetRow
  econ : EconState
  members : List ℕ
  channels : List ℕ
deriving DecidableEq, Repr

/-- `Gambling.get_betting`: `SELECT * FROM bettings WHERE channel_id = ?`. -/
def getBetting (st : BotState) (ch : ℕ) : Option BettingRow :=
  st.bettings.find? (fun b => decide (b.channelId = ch))

/-- `Gambling.get_bets`: `SELECT * FROM bets WHERE channel_id = ?`. -/
def getBets (st : BotState) (ch : ℕ) : List BetRow :=
  st.bets.filter (fun b => decide (b.channelId = ch))

/-- Refund loop of `_cancel_gamble`: for each bet, a departed member is
skipped, otherwise `economy.get_account(member)` (which lazily creates the
row) followed by `account.deposit(bet.amount)`.  An exception stops the
loop with the deposits made so far already applied. -/
def refundAll (e : EconState) (members : List ℕ) (bets : List BetRow)
    (defaultBalance : ℤ) (reason : String) (ts : ℚ) : EconState × Option EconError :=
  match bets with
  | [] => (e, none)
  | b :: rest =>
    if b.userId ∈ members then
      match createAccount e b.userId defaultBalance with
      | ⟨e1, some err, _⟩ => (e1, some err)
      | ⟨e1, none, _⟩ =>
        match accountDeposit e1 b.userId b.amount ts reason with
        | ⟨e2, some err, _⟩ => (e2, some err)
        | ⟨e2, none, _⟩ => refundAll e2 members rest defaultBalance reason ts
    else refundAll e members rest defaultBalance reason ts

/-- Total refund the `_cancel_gamble` loop deposits to user `u`: the sum
of the stakes of `u`'s bets in the list, counting only bets whose owner is
still a guild member. -/
def refundTotal (members : List ℕ) (u : ℕ) (bets : List BetRow) : ℤ :=
  ((bets.filter (fun b => decide (b.userId = u ∧ b.userId ∈ members))).map
    (fun b => b.amount)).sum

/-- Number of winning bets of user `u` that the `handle_winners` loop
actually pays (bets whose owner is still a guild member). -/
def payCount (members : List ℕ) (u : ℕ) (winners : List BetRow) : ℕ :=
  (winners.filter (fun w => decide (w.userId = u ∧ w.userId ∈ members))).length

/-- Which reply a gambling command path produces. -/
inductive GambleOutcome where
  | noBetting
  | noBets
  | invalidChannel
  | invalidChoice
  | noTotal
  | noWinners
  | done
  | raised
deriving DecidableEq, Repr

/-- Result of a gambling operation: the bot state afterwards, the reply
path taken, and a raised exception if any. -/
structure GambleRes where
  state : BotState
  outcome : GambleOutcome
  error : Option EconError
deriving DecidableEq, Repr

/-- Confirmed path of `Gambling._cancel_gamble` (after the existence,
permission and confirmation steps): fetch the bets; when there is at least
one, refund each participant still on the guild, then delete the betting
row and all bet rows of the channel; when there are none, return with the
"Aucun pari" reply, leaving the session in place. -/
def cancelGamble (st : BotState) (ch : ℕ) (defaultBalance : ℤ) (ts : ℚ) : GambleRes :=
  match getBetting st ch with
  | none => ⟨st, .noBetting, none⟩
  | some betting =>
    let bets := getBets st ch
    if bets.isEmpty then ⟨st, .noBets, none⟩
    else
      match refundAll st.econ st.members bets defaultBalance
          ("Remboursement du pari " ++ betting.title) ts with
      | (e, some err) => ⟨{ st with econ := e }, .raised, some err⟩
      | (e, none) =>
        ⟨{ st with
            econ := e
            bettings := st.bettings.filter (fun b => decide (¬ b.channelId = ch))
            bets := st.bets.filter (fun b => decide (¬ b.channelId = ch)) },
          .done, none⟩

/-- Python `str.lower()` (ASCII model). -/
def strLower (s : String) : String := ⟨s.data.map Char.toLower⟩

/-- Payout loop of `Gambling.handle_winners`: for each winning bet, a
departed member is only listed in the display table; a present member is
paid `int(bet.amount * total / bet.amount)` — Python float division then
truncation, a `ZeroDivisionError` when the stake is 0 — through
`get_account` and `deposit`.  The sort of the winners by stake only
affects display order and is omitted. -/
def payWinners (e : EconState) (members : List ℕ) (winners : List BetRow)
    (total defaultBalance : ℤ) (reason : String) (ts : ℚ) :
    EconState × Option EconError :=
  match winners with
  | [] => (e, none)
  | w :: rest =>
    if w.userId ∈ members then
      if w.amount = 0 then (e, some (.valueError "ZeroDivisionError"))
      else
        let amount := (w.amount * total).tdiv w.amount
        match createAccount e w.userId defaultBalance with
        | ⟨e1, some err, _⟩ => (e1, some err)
        | ⟨e1, none, _⟩ =>
          match accountDeposit e1 w.userId amount ts reason with
          | ⟨e2, some err, _⟩ => (e2, some err)
          | ⟨e2, none, _⟩ => payWinners e2 members rest total defaultBalance reason ts
    else payWinners e members rest total defaultBalance reason ts

/-- `Gambling.handle_winners`: raises when no session exists; returns
early when there are no bets, when the stored channel no longer exists,
when the result is not one of the declared choices, when the total of all
stakes is zero, or when nobody bet on the winning choice; otherwise pays
each still-present winner via `payWinners`.  Rows are not deleted here
(the caller `_stop_gamble` deletes them afterwards). -/
def handleWinners (st : BotState) (ch : ℕ) (result : String)
    (defaultBalance : ℤ) (ts : ℚ) : GambleRes :=
  match getBetting st ch with
  | none => ⟨st, .raised, some (.valueError "Le pari n existe pas")⟩
  | some data =>
    let bets := getBets st ch
    if bets.isEmpty then ⟨st, .noBets, none⟩
    else if ¬ data.channelId ∈ st.channels then ⟨st, .invalidChannel, none⟩
    else
      let winner := strLower result
      if ¬ winner ∈ data.choices then ⟨st, .invalidChoice, none⟩
      else
        let total := (bets.map (fun b => b.amount)).sum
        if total = 0 then ⟨st, .noTotal, none⟩
        else
          let winners := bets.filter (fun b => decide (b.choice = winner))
          if winners.isEmpty then ⟨st, .noWinners, none⟩
          else
            match payWinners st.econ st.members winners total defaultBalance
                ("Gains du pari " ++ data.title) ts with
            | (e, some err) => ⟨{ st with econ := e }, .raised, some err⟩
            | (e, none) => ⟨{ st with econ := e }, .done, none⟩

/-! ### Dice engine (`gametools.py`, `ThrowTransformer.transform`)

Digits are modelled as ASCII digits (Python `\d` additionally matches
other Unicode decimal digits, which no claim exercises). -/

/-- A die, `Dice(faces)`; `ClassicDice(f)` has faces `list(range(1, f+1))`. -/
structure Dice where
  faces : List ℕ
deriving DecidableEq, Repr

def classicDice (f : ℕ) : Dice := ⟨List.range' 1 f⟩

/-- Numeric value of a digit string, as Python `int`. -/
def digitsVal (l : List Char) : ℕ :=
  l.foldl (fun n c => 10 * n + (c.toNat - 48)) 0

/-- Matches the tail `\d+(,\d+)*\)` (with nothing after the closing
parenthesis) and returns the face values; `acc` is the value of the digits
of the current group read so far and `seen` whether that group is
non-empty. -/
def facesAux : List Char → ℕ → Bool → Option (List ℕ)
  | [], _, _ => none
  | c :: rest, acc, seen =>
    if c.isDigit then facesAux rest (10 * acc + (c.toNat - 48)) true
    else if c = ',' then
      if seen then (facesAux rest 0 false).map (acc :: ·) else none
    else if c = ')' then
      if seen ∧ rest = [] then some [acc] else none
    else none

/-- Regex `^\d+d\d+$` together with the `n, f = dice.split('d')`
extraction: a classic-dice term. -/
def matchNdF (l : List Char) : Option (ℕ × ℕ) :=
  match l.span Char.isDigit with
  | (n, 'd' :: rest) =>
    if n.isEmpty then none
    else
      match rest.span Char.isDigit with
      | (f, []) => if f.isEmpty then none else some (digitsVal n, digitsVal f)
      | _ => none
  | _ => none

/-- Regex `^\d+d\(\d+(,\d+)*\)$` with its extraction: a custom-dice term. -/
def matchCustom (l : List Char) : Option (ℕ × List ℕ) :=
  match l.span Char.isDigit with
  | (n, 'd' :: '(' :: rest) =>
    if n.isEmpty then none
    else (facesAux rest 0 false).map (fun faces => (digitsVal n, faces))
  | _ => none

/-- One loop iteration of `transform`: the dice contributed by one term.
`int(n) or 1` makes a count of `0` behave as `1`. -/
def termDice (t : List Char) : Option (List Dice) :=
  match matchNdF t with
  | some (n, f) => some (List.replicate (if n = 0 then 1 else n) (classicDice f))
  | none =>
    match matchCustom t with
    | some (n, faces) => some (List.replicate (if n = 0 then 1 else n) ⟨faces⟩)
    | none => none

/-- The whole loop: all terms expanded, `none` as soon as one term matches
neither grammar (the source raises there). -/
def collectDice : List (List Char) → Option (List Dice)
  | [] => some []
  | t :: rest =>
    match termDice t with
    | none => none
    | some d => (collectDice rest).map (d ++ ·)

/-- Python `value.split('+')`: split at every `'+'`, keeping empty parts. -/
def splitPlus : List Char → List (List Char)
  | [] => [[]]
  | c :: rest =>
    let gs := splitPlus rest
    if c = '+' then [] :: gs
    else
      match gs with
      | [] => [[c]]
      | g :: gs' => (c :: g) :: gs'

/-- Python `str.strip()`: drop whitespace from both ends. -/
def stripChars (l : List Char) : List Char :=
  ((l.dropWhile Char.isWhitespace).reverse.dropWhile Char.isWhitespace).reverse

/-- Rejection causes of `ThrowTransformer.transform`. -/
inductive ThrowError where
  | badFormat
  | tooMany
deriving DecidableEq, Repr

/-- `ThrowTransformer.transform`: split the expression on `'+'`, strip
each term, expand every term through the two grammars (raising
`BadArgument` on a term matching neither), then reject once more than 20
dice result. -/
def throwTransform (value : String) : Except ThrowError (List Dice) :=
  let terms := (splitPlus value.toList).map stripChars
  match collectDice terms with
  | none => .error .badFormat
  | some dices =>
    if dices.length > 20 then .error .tooMany else .ok dices

/-! ### Helper lemmas on association-list tables -/

theorem lookup_mem {l : AccountsTable} {u : ℕ} {b : ℤ} (h : l.lookup u = some b) :
    (u, b) ∈ l := by
  induction l with
  | nil => simp [List.lookup] at h
  | cons p rest ih =>
    obtain ⟨k, v⟩ := p
    rw [List.lookup] at h
    cases hu : (u == k) with
    | true =>
      rw [hu] at h
      obtain rfl : v = b := by simpa using h
      have hk : u = k := by simpa using hu
      subst hk
      exact List.mem_cons_self _ _
    | false =>
      rw [hu] at h
      exact List.mem_cons_of_mem _ (ih h)

theorem lookup_updateAcc_self {l : AccountsTable} {u : ℕ} {b : ℤ} (v : ℤ)
    (h : l.lookup u = some b) : (updateAcc u v l).lookup u = some v := by
  induction l with
  | nil => simp [List.lookup] at h
  | cons p rest ih =>
    obtain ⟨k, w⟩ := p
    rw [List.lookup] at h
    unfold updateAcc at *
    cases hu : (u == k) with
    | true =>
      have hk : u = k := by simpa using hu
      subst hk
      simp only [List.map_cons, if_pos trivial]
      rw [List.lookup, hu]
    | false =>
      have hk : ¬ u = k := by simpa using hu
      rw [hu] at h
      simp only [List.map_cons]
      rw [if_neg (fun heq => hk heq.symm)]
      rw [List.lookup, hu]
      exact ih h

theorem lookup_updateAcc_ne {l : AccountsTable} {u u' : ℕ} (v : ℤ) (h : ¬ u' = u) :
    (updateAcc u v l).lookup u' = l.lookup u' := by
  induction l with
  | nil => simp [updateAcc, List.lookup]
  | cons p rest ih =>
    obtain ⟨k, w⟩ := p
    unfold updateAcc at *
    simp only [List.map_cons]
    by_cases hk : k = u
    · subst hk
      rw [if_pos rfl]
      have : (u' == k) = false := by simpa using h
      rw [List.lookup, List.lookup, this]
      exact ih
    · rw [if_neg hk]
      rw [List.lookup, List.lookup]
      cases hu : (u' == k) with
      | true => rfl
      | false => exact ih

theorem mem_updateAcc {l : AccountsTable} {u : ℕ} {v : ℤ} {p : ℕ × ℤ}
    (h : p ∈ updateAcc u v l) : p = (u, v) ∨ p ∈ l := by
  unfold updateAcc at h
  obtain ⟨q, hq, hpq⟩ := List.mem_map.mp h
  by_cases hk : q.1 = u
  · rw [if_pos hk] at hpq
    exact Or.inl hpq.symm
  · rw [if_neg hk] at hpq
    exact Or.inr (hpq ▸ hq)

theorem lookup_append_some {l l₂ : AccountsTable} {u : ℕ} {b : ℤ}
    (h : l.lookup u = some b) : (l ++ l₂).lookup u = some b := by
  induction l with
  | nil => simp [List.lookup] at h
  | cons p rest ih =>
    obtain ⟨k, w⟩ := p
    rw [List.lookup] at h
    rw [List.cons_append, List.lookup]
    cases hu : (u == k) with
    | true => rw [hu] at h; exact h
    | false => rw [hu] at h; exact ih h

theorem lookup_append_none {l l₂ : AccountsTable} {u : ℕ}
    (h : l.lookup u = none) : (l ++ l₂).lookup u = l₂.lookup u := by
  induction l with
  | nil => simp
  | cons p rest ih =>
    obtain ⟨k, w⟩ := p
    rw [List.lookup] at h
    rw [List.cons_append, List.lookup]
    cases hu : (u == k) with
    | true => rw [hu] at h; exact absurd h (by simp)
    | false => rw [hu] at h; exact ih h

theorem lookup_single_self (k : ℕ) (d : ℤ) :
    (([(k, d)] : AccountsTable).lookup k) = some d := by
  simp [List.lookup]

theorem lookup_single_ne {k u : ℕ} (d : ℤ) (h : ¬ u = k) :
    (([(k, d)] : AccountsTable).lookup u) = none := by
  have : (u == k) = false := by simpa using h
  simp [List.lookup, this]

/-! ### Operation-level lemmas -/

theorem createAccount_existing {s : EconState} {uid : ℕ} (d : ℤ)
    (h : (s.accounts.lookup uid).isSome) : createAccount s uid d = ⟨s, none, none⟩ := by
  unfold createAccount
  rw [if_pos h]

theorem createAccount_new {s : EconState} {uid : ℕ} {d : ℤ}
    (h : s.accounts.lookup uid = none) (hd : 0 ≤ d) :
    createAccount s uid d = ⟨⟨s.accounts ++ [(uid, d)], s.transactions⟩, none, none⟩ := by
  unfold createAccount
  rw [if_neg (by simp [h]), if_neg (by omega)]

theorem deposit_ok {s : EconState} {uid : ℕ} {b a : ℤ}
    (hb : s.accounts.lookup uid = some b) (hba : 0 ≤ b + a) (ha : 0 ≤ a)
    (ts : ℚ) (r : String) :
    accountDeposit s uid a ts r =
      ⟨⟨updateAcc uid (b + a) s.accounts,
        txInsertOrIgnore (mkTx ts uid a r) s.transactions⟩,
        none, some (mkTx ts uid a r)⟩ := by
  simp only [accountDeposit, setBalanceRaw, hb, if_neg (show ¬ a < 0 by omega),
    if_neg (show ¬ b + a < 0 by omega), add_sub_cancel_left]

/-- After a successful deposit every stored balance is still non-negative. -/
theorem deposit_preserves_nonneg {s : EconState} {uid : ℕ} {b a : ℤ}
    (hb : s.accounts.lookup uid = some b) (hba : 0 ≤ b + a) (ha : 0 ≤ a)
    (ts : ℚ) (r : String) (hnn : allNonneg s) :
    allNonneg (accountDeposit s uid a ts r).state := by
  rw [deposit_ok hb hba ha ts r]
  intro p hp
  rcases mem_updateAcc hp with h | h
  · subst h; exact hba
  · exact hnn p h

/-- The refund loop of `_cancel_gamble` never raises when every stake is
non-negative and every stored balance is non-negative; it preserves the
balance invariant, and it adds to every existing account exactly the
member-filtered total of that user's stakes in the list. -/
theorem refundAll_spec (members : List ℕ) (defaultB : ℤ) (reason : String) (ts : ℚ)
    (hd : 0 ≤ defaultB) :
    ∀ (bets : List BetRow) (e : EconState),
      allNonneg e → (∀ b ∈ bets, 0 ≤ b.amount) →
      (refundAll e members bets defaultB reason ts).2 = none ∧
      allNonneg (refundAll e members bets defaultB reason ts).1 ∧
      ∀ u v, e.accounts.lookup u = some v →
        (refundAll e members bets defaultB reason ts).1.accounts.lookup u
          = some (v + refundTotal members u bets) := by
  intro bets
  induction bets with
  | nil =>
    intro e hnn _
    refine ⟨rfl, hnn, ?_⟩
    intro u v hv
    simpa [refundAll, refundTotal] using hv
  | cons b rest ih =>
    intro e hnn hamts
    have hb0 : 0 ≤ b.amount := hamts b (List.mem_cons_self _ _)
    have hrest : ∀ x ∈ rest, 0 ≤ x.amount := fun x hx => hamts x (List.mem_cons_of_mem _ hx)
    by_cases hm : b.userId ∈ members
    · cases hacct : e.accounts.lookup b.userId with
      | some b0 =>
        have hca : createAccount e b.userId defaultB = ⟨e, none, none⟩ :=
          createAccount_existing _ (by simp [hacct])
        have hb00 : 0 ≤ b0 := hnn _ (lookup_mem hacct)
        have hdep := deposit_ok hacct (by omega) hb0 ts reason
        have hstep : refundAll e members (b :: rest) defaultB reason ts
            = refundAll ⟨updateAcc b.userId (b0 + b.amount) e.accounts,
                txInsertOrIgnore (mkTx ts b.userId b.amount reason) e.transactions⟩
                members rest defaultB reason ts := by
          simp only [refundAll, if_pos hm, hca, hdep]
        have hnn2 : allNonneg (⟨updateAcc b.userId (b0 + b.amount) e.accounts,
            txInsertOrIgnore (mkTx ts b.userId b.amount reason) e.transactions⟩ : EconState) := by
          intro p hp
          rcases mem_updateAcc hp with h | h
          · subst h; omega
          · exact hnn p h
        obtain ⟨ih1, ih2, ih3⟩ := ih _ hnn2 hrest
        rw [hstep]
        refine ⟨ih1, ih2, ?_⟩
        intro u v hv
        by_cases hu : u = b.userId
        · have hv0 : v = b0 := by
            rw [hu, hacct] at hv; exact (Option.some_inj.mp hv).symm
          have hl : (updateAcc b.userId (b0 + b.amount) e.accounts).lookup u
              = some (b0 + b.amount) := by
            rw [hu]; exact lookup_updateAcc_self _ hacct
          have h2 := ih3 u (b0 + b.amount) hl
          rw [h2]
          have hrt : refundTotal members u (b :: rest)
              = b.amount + refundTotal members u rest := by
            simp [refundTotal, List.filter_cons, hu, hm]
          rw [hrt, hv0]
          congr 1
          ring
        · have h2 := ih3 u v (by rw [lookup_updateAcc_ne _ hu]; exact hv)
          rw [h2]
          have hne : ¬ (b.userId = u ∧ b.userId ∈ members) := by
            intro h
            exact hu h.1.symm
          have hrt : refundTotal members u (b :: rest) = refundTotal members u rest := by
            simp [refundTotal, List.filter_cons, hne]
          rw [hrt]
      | none =>
        have hca := createAccount_new hacct hd
        have hl1 : (e.accounts ++ [(b.userId, defaultB)]).lookup b.userId = some defaultB := by
          rw [lookup_append_none hacct]; exact lookup_single_self _ _
        have hdep := @deposit_ok ⟨e.accounts ++ [(b.userId, defaultB)], e.transactions⟩
          b.userId defaultB b.amount hl1 (by omega) hb0 ts reason
        have hstep : refundAll e members (b :: rest) defaultB reason ts
            = refundAll ⟨updateAcc b.userId (defaultB + b.amount)
                  (e.accounts ++ [(b.userId, defaultB)]),
                txInsertOrIgnore (mkTx ts b.userId b.amount reason) e.transactions⟩
                members rest defaultB reason ts := by
          simp only [refundAll, if_pos hm, hca, hdep]
        have hnn2 : allNonneg (⟨updateAcc b.userId (defaultB + b.amount)
              (e.accounts ++ [(b.userId, defaultB)]),
            txInsertOrIgnore (mkTx ts b.userId b.amount reason) e.transactions⟩ : EconState) := by
          intro p hp
          rcases mem_updateAcc hp with h | h
          · subst h; omega
          · rcases List.mem_append.mp h with h' | h'
            · exact hnn p h'
            · simp at h'; subst h'; exact hd
        obtain ⟨ih1, ih2, ih3⟩ := ih _ hnn2 hrest
        rw [hstep]
        refine ⟨ih1, ih2, ?_⟩
        intro u v hv
        have hu : ¬ u = b.userId := by
          intro h; subst h; rw [hacct] at hv; exact Option.noConfusion hv
        have hl2 : (updateAcc b.userId (defaultB + b.amount)
            (e.accounts ++ [(b.userId, defaultB)])).lookup u = some v := by
          rw [lookup_updateAcc_ne _ hu]
          exact lookup_append_some hv
        have h2 := ih3 u v hl2
        rw [h2]
        have hne : ¬ (b.userId = u ∧ b.userId ∈ members) := by
          intro h
          exact hu h.1.symm
        have hrt : refundTotal members u (b :: rest) = refundTotal members u rest := by
          simp [refundTotal, List.filter_cons, hne]
        rw [hrt]
    · have hstep : refundAll e members (b :: rest) defaultB reason ts
          = refundAll e members rest defaultB reason ts := by
        simp only [refundAll, if_neg hm]
      obtain ⟨ih1, ih2, ih3⟩ := ih e hnn hrest
      rw [hstep]
      refine ⟨ih1, ih2, ?_⟩
      intro u v hv
      rw [ih3 u v hv]
      have hne : ¬ (b.userId = u ∧ b.userId ∈ members) := fun h => hm h.2
      have hrt : refundTotal members u (b :: rest) = refundTotal members u rest := by
        simp [refundTotal, List.filter_cons, hne]
      rw [hrt]

/-- The payout loop of `handle_winners` never raises when every winning
stake is at least 1, the pot is non-negative and every stored balance is
non-negative; it preserves the balance invariant, and it adds exactly
`total` to an existing account once per member-owned winning bet — the
stake-cancelling `int(stake * total / stake)` formula. -/
theorem payWinners_spec (members : List ℕ) (total defaultB : ℤ) (reason : String)
    (ts : ℚ) (hd : 0 ≤ defaultB) (ht : 0 ≤ total) :
    ∀ (winners : List BetRow) (e : EconState),
      allNonneg e → (∀ w ∈ winners, 1 ≤ w.amount) →
      (payWinners e members winners total defaultB reason ts).2 = none ∧
      allNonneg (payWinners e members winners total defaultB reason ts).1 ∧
      ∀ u v, e.accounts.lookup u = some v →
        (payWinners e members winners total defaultB reason ts).1.accounts.lookup u
          = some (v + payCount members u winners * total) := by
  intro winners
  induction winners with
  | nil =>
    intro e hnn _
    refine ⟨rfl, hnn, ?_⟩
    intro u v hv
    simpa [payWinners, payCount] using hv
  | cons w rest ih =>
    intro e hnn hamts
    have hw1 : 1 ≤ w.amount := hamts w (List.mem_cons_self _ _)
    have hrest : ∀ x ∈ rest, 1 ≤ x.amount := fun x hx => hamts x (List.mem_cons_of_mem _ hx)
    have hwa : ¬ w.amount = 0 := by omega
    have hpay : (w.amount * total).tdiv w.amount = total :=
      Int.mul_tdiv_cancel_left total hwa
    by_cases hm : w.userId ∈ members
    · cases hacct : e.accounts.lookup w.userId with
      | some b0 =>
        have hca : createAccount e w.userId defaultB = ⟨e, none, none⟩ :=
          createAccount_existing _ (by simp [hacct])
        have hb00 : 0 ≤ b0 := hnn _ (lookup_mem hacct)
        have hdep := deposit_ok hacct
          (show 0 ≤ b0 + (w.amount * total).tdiv w.amount by rw [hpay]; omega)
          (by rw [hpay]; omega) ts reason
        have hstep : payWinners e members (w :: rest) total defaultB reason ts
            = payWinners ⟨updateAcc w.userId (b0 + (w.amount * total).tdiv w.amount) e.accounts,
                txInsertOrIgnore (mkTx ts w.userId ((w.amount * total).tdiv w.amount) reason)
                  e.transactions⟩
                members rest total defaultB reason ts := by
          simp only [payWinners, if_pos hm, if_neg hwa, hca, hdep]
        have hnn2 : allNonneg (⟨updateAcc w.userId (b0 + (w.amount * total).tdiv w.amount)
              e.accounts,
            txInsertOrIgnore (mkTx ts w.userId ((w.amount * total).tdiv w.amount) reason)
              e.transactions⟩ : EconState) := by
          intro p hp
          rcases mem_updateAcc hp with h | h
          · subst h
            simp only
            rw [hpay]
            omega
          · exact hnn p h
        obtain ⟨ih1, ih2, ih3⟩ := ih _ hnn2 hrest
        rw [hstep]
        refine ⟨ih1, ih2, ?_⟩
        intro u v hv
        by_cases hu : u = w.userId
        · have hv0 : v = b0 := by
            rw [hu, hacct] at hv; exact (Option.some_inj.mp hv).symm
          have hl : (updateAcc w.userId (b0 + (w.amount * total).tdiv w.amount)
              e.accounts).lookup u = some (b0 + (w.amount * total).tdiv w.amount) := by
            rw [hu]; exact lookup_updateAcc_self _ hacct
          have h2 := ih3 u _ hl
          rw [h2]
          have hpc : payCount members u (w :: rest) = payCount members u rest + 1 := by
            simp [payCount, List.filter_cons, hu, hm]
          rw [hpc, hv0, hpay]
          congr 1
          push_cast
          ring
        · have h2 := ih3 u v (by rw [lookup_updateAcc_ne _ hu]; exact hv)
          rw [h2]
          have hne : ¬ (w.userId = u ∧ w.userId ∈ members) := by
            intro h
            exact hu h.1.symm
          have hpc : payCount members u (w :: rest) = payCount members u rest := by
            simp [payCount, List.filter_cons, hne]
          rw [hpc]
      | none =>
        have hca := createAccount_new hacct hd
        have hl1 : (e.accounts ++ [(w.userId, defaultB)]).lookup w.userId = some defaultB := by
          rw [lookup_append_none hacct]; exact lookup_single_self _ _
        have hdep := @deposit_ok ⟨e.accounts ++ [(w.userId, defaultB)], e.transactions⟩
          w.userId defaultB ((w.amount * total).tdiv w.amount)
          hl1 (show 0 ≤ defaultB + (w.amount * total).tdiv w.amount by rw [hpay]; omega)
          (by rw [hpay]; omega) ts reason
        have hstep : payWinners e members (w :: rest) total defaultB reason ts
            = payWinners ⟨updateAcc w.userId (defaultB + (w.amount * total).tdiv w.amount)
                  (e.accounts ++ [(w.userId, defaultB)]),
                txInsertOrIgnore (mkTx ts w.userId ((w.amount * total).tdiv w.amount) reason)
                  e.transactions⟩
                members rest total defaultB reason ts := by
          simp only [payWinners, if_pos hm, if_neg hwa, hca, hdep]
        have hnn2 : allNonneg (⟨updateAcc w.userId
              (defaultB + (w.amount * total).tdiv w.amount)
              (e.accounts ++ [(w.userId, defaultB)]),
            txInsertOrIgnore (mkTx ts w.userId ((w.amount * total).tdiv w.amount) reason)
              e.transactions⟩ : EconState) := by
          intro p hp
          rcases mem_updateAcc hp with h | h
          · subst h
            simp only
            rw [hpay]
            omega
          · rcases List.mem_append.mp h with h' | h'
            · exact hnn p h'
            · simp at h'; subst h'; exact hd
        obtain ⟨ih1, ih2, ih3⟩ := ih _ hnn2 hrest
        rw [hstep]
        refine ⟨ih1, ih2, ?_⟩
        intro u v hv
        have hu : ¬ u = w.userId := by
          intro h; subst h; rw [hacct] at hv; exact Option.noConfusion hv
        have hl2 : (updateAcc w.userId (defaultB + (w.amount * total).tdiv w.amount)
            (e.accounts ++ [(w.userId, defaultB)])).lookup u = some v := by
          rw [lookup_updateAcc_ne _ hu]
          exact lookup_append_some hv
        have h2 := ih3 u v hl2
        rw [h2]
        have hne : ¬ (w.userId = u ∧ w.userId ∈ members) := by
          intro h
          exact hu h.1.symm
        have hpc : payCount members u (w :: rest) = payCount members u rest := by
          simp [payCount, List.filter_cons, hne]
        rw [hpc]
    · have hstep : payWinners e members (w :: rest) total defaultB reason ts
          = payWinners e members rest total defaultB reason ts := by
        simp only [payWinners, if_neg hm]
      obtain ⟨ih1, ih2, ih3⟩ := ih e hnn hrest
      rw [hstep]
      refine ⟨ih1, ih2, ?_⟩
      intro u v hv
      rw [ih3 u v hv]
      have hne : ¬ (w.userId = u ∧ w.userId ∈ members) := fun h => hm h.2
      have hpc : payCount members u (w :: rest) = payCount members u rest := by
        simp [payCount, List.filter_cons, hne]
      rw [hpc]

theorem withdraw_ok {s : EconState} {uid : ℕ} {b a : ℤ}
    (hb : s.accounts.lookup uid = some b) (ha : 0 ≤ a) (hba : 0 ≤ b - a)
    (ts : ℚ) (r : String) :
    accountWithdraw s uid a ts r =
      ⟨⟨updateAcc uid (b - a) s.accounts,
        txInsertOrIgnore (mkTx ts uid (-a) r) s.transactions⟩,
        none, some (mkTx ts uid (-a) r)⟩ := by
  simp only [accountWithdraw, setBalanceRaw, hb, if_neg (show ¬ a < 0 by omega),
    if_neg (show ¬ b - a < 0 by omega), sub_sub_cancel_left]

theorem txInsert_fresh {t : Tx} {table : TxTable} (h : ∀ r ∈ table, ¬ r.id = t.id) :
    txInsertOrIgnore t table = t :: table := by
  unfold txInsertOrIgnore
  rw [if_neg]
  simpa using h

theorem txInsert_present {t : Tx} {table : TxTable}
    (h : ∃ r ∈ table, r.id = t.id) : txInsertOrIgnore t table = table := by
  unfold txInsertOrIgnore
  rw [if_pos]
  simpa using h

theorem txInsert_mem_id (t : Tx) (table : TxTable) :
    ∃ r ∈ txInsertOrIgnore t table, r.id = t.id := by
  unfold txInsertOrIgnore
  by_cases h : table.any (fun r => decide (r.id = t.id)) = true
  · rw [if_pos h]
    simpa using h
  · rw [if_neg h]
    exact ⟨t, List.mem_cons_self _ _, rfl⟩

theorem find_channel_filtered_none (l : List BettingRow) (ch : ℕ) :
    (l.filter (fun b => decide (¬ b.channelId = ch))).find?
      (fun b => decide (b.channelId = ch)) = none := by
  rw [List.find?_eq_none]
  intro x hx
  have hmem := List.of_mem_filter hx
  simp at hmem ⊢
  exact hmem

theorem bets_channel_filtered_nil (l : List BetRow) (ch : ℕ) :
    (l.filter (fun b => decide (¬ b.channelId = ch))).filter
      (fun b => decide (b.channelId = ch)) = [] := by
  rw [List.filter_eq_nil_iff]
  intro x hx
  have hmem := List.of_mem_filter hx
  simp at hmem ⊢
  exact hmem

theorem collectDice_none_of_mem {terms : List (List Char)} {t : List Char}
    (hmem : t ∈ terms) (hnone : termDice t = none) : collectDice terms = none := by
  induction terms with
  | nil => exact absurd hmem (List.not_mem_nil t)
  | cons x rest ih =>
    rcases List.mem_cons.mp hmem with h | h
    · subst h
      simp [collectDice, hnone]
    · unfold collectDice
      cases termDice x with
      | none => rfl
      | some d => rw [ih h]; rfl

/-! ### Claim theorems -/

/-- C3: two transactions for the same user whose timestamps share the
integer second and whose amounts share the absolute value (for example a
deposit of `a` and a withdrawal of `a`) get equal derived ids; recording
the second through `INSERT OR IGNORE` leaves the table exactly as after
the first — the earlier row with its signed amount and reason persists and
the ledger does not grow — and when the id was fresh the stored row is the
first transaction. -/
theorem c3_same_second_id_collision_ignored (ts₁ ts₂ : ℚ) (uid : ℕ) (a₁ a₂ : ℤ)
    (r₁ r₂ : String) (table : TxTable)
    (hsec : pyTrunc ts₁ = pyTrunc ts₂) (habs : a₁.natAbs = a₂.natAbs) :
    (mkTx ts₁ uid a₁ r₁).id = (mkTx ts₂ uid a₂ r₂).id ∧
    txInsertOrIgnore (mkTx ts₂ uid a₂ r₂)
        (txInsertOrIgnore (mkTx ts₁ uid a₁ r₁) table)
      = txInsertOrIgnore (mkTx ts₁ uid a₁ r₁) table ∧
    ((∀ r ∈ table, ¬ r.id = (mkTx ts₁ uid a₁ r₁).id) →
      txInsertOrIgnore (mkTx ts₂ uid a₂ r₂)
          (txInsertOrIgnore (mkTx ts₁ uid a₁ r₁) table)
        = mkTx ts₁ uid a₁ r₁ :: table) := by
  have hid : (mkTx ts₁ uid a₁ r₁).id = (mkTx ts₂ uid a₂ r₂).id := by
    simp [mkTx, mkTxId, hsec, habs]
  have heq : txInsertOrIgnore (mkTx ts₂ uid a₂ r₂)
      (txInsertOrIgnore (mkTx ts₁ uid a₁ r₁) table)
      = txInsertOrIgnore (mkTx ts₁ uid a₁ r₁) table := by
    apply txInsert_present
    obtain ⟨r, hr, hrid⟩ := txInsert_mem_id (mkTx ts₁ uid a₁ r₁) table
    exact ⟨r, hr, by rw [hrid, hid]⟩
  refine ⟨hid, heq, fun hf => ?_⟩
  rw [heq, txInsert_fresh hf]

/-- C3 witness: a deposit of 50 and a withdrawal of 50 for user 1 in
second 1000 share the derived id, and the second insert is ignored: the
table still holds only the deposit row. -/
theorem c3_witness :
    pyTrunc (1000 : ℚ) = pyTrunc (1000 : ℚ) ∧ (50 : ℤ).natAbs = (-50 : ℤ).natAbs ∧
    (mkTx 1000 1 50 "dep").id = (mkTx 1000 1 (-50) "wd").id ∧
    txInsertOrIgnore (mkTx 1000 1 (-50) "wd")
        (txInsertOrIgnore (mkTx 1000 1 50 "dep") [])
      = [mkTx 1000 1 50 "dep"] := by
  have h := c3_same_second_id_collision_ignored 1000 1000 1 50 (-50)
    "dep" "wd" [] (by decide) (by decide)
  exact ⟨by decide, by decide, h.1, h.2.2 (by simp)⟩

/-- C7: `Account.set` rejects every negative target and `Account.deposit`
rejects every negative amount with a `ValueError`; in both cases the state
is returned untouched and no transaction is created. -/
theorem c7_negative_amounts_rejected (s : EconState) (uid : ℕ) (v a : ℤ)
    (ts : ℚ) (r₁ r₂ : String) :
    (v < 0 → accountSet s uid v ts r₁
      = ⟨s, some (.valueError "Le solde du compte ne peut pas etre negatif"), none⟩) ∧
    (a < 0 → accountDeposit s uid a ts r₂
      = ⟨s, some (.valueError "Le montant ne peut pas etre negatif"), none⟩) := by
  constructor
  · intro h
    simp [accountSet, if_pos h]
  · intro h
    simp [accountDeposit, if_pos h]

/-- C7 witness: `set (-1)` and `deposit (-5)` are rejected with the state
unchanged on a concrete account. -/
theorem c7_witness :
    accountSet ⟨[(1, 10)], []⟩ 1 (-1) 0 ""
      = ⟨⟨[(1, 10)], []⟩,
          some (.valueError "Le solde du compte ne peut pas etre negatif"), none⟩ ∧
    accountDeposit ⟨[(1, 10)], []⟩ 1 (-5) 0 ""
      = ⟨⟨[(1, 10)], []⟩,
          some (.valueError "Le montant ne peut pas etre negatif"), none⟩ := by
  have h := c7_negative_amounts_rejected ⟨[(1, 10)], []⟩ 1 (-1) (-5) 0 "" ""
  exact ⟨h.1 (by decide), h.2 (by decide)⟩

/-- C8: withdrawing more than the balance passes the ledger layer (no
`ValueError`) and fails at the storage layer through the
`CHECK (balance >= 0)` column constraint; the stored balance is unchanged
and no transaction is recorded. -/
theorem c8_overdraw_fails_at_storage (s : EconState) (uid : ℕ) (b a : ℤ)
    (ts : ℚ) (r : String)
    (hb : s.accounts.lookup uid = some b) (hover : b < |a|) :
    accountWithdraw s uid a ts r
      = ⟨s, some (.checkViolation "CHECK balance >= 0"), none⟩ := by
  rcases abs_cases a with ⟨habs, hsign⟩ | ⟨habs, hsign⟩
  · simp only [accountWithdraw, setBalanceRaw, hb,
      if_neg (show ¬ a < 0 by omega)]
    rw [if_pos (by omega)]
  · simp only [accountWithdraw, setBalanceRaw, hb, if_pos hsign]
    rw [if_pos (by omega)]

/-- C8 witness: withdrawing 50 from a balance of 10 fails with the storage
constraint and leaves the account row intact. -/
theorem c8_witness :
    accountWithdraw ⟨[(1, 10)], []⟩ 1 50 0 ""
      = ⟨⟨[(1, 10)], []⟩, some (.checkViolation "CHECK balance >= 0"), none⟩ :=
  c8_overdraw_fails_at_storage ⟨[(1, 10)], []⟩ 1 10 50 0 "" (by decide) (by decide)

/-- C10: account construction is idempotent on stored state — an existing
row keeps its balance whatever the current default is, a missing row is
created with exactly the current default, and neither case records a
transaction. -/
theorem c10_account_creation_idempotent (s : EconState) (uid : ℕ) (d : ℤ) :
    (∀ b, s.accounts.lookup uid = some b →
      createAccount s uid d = ⟨s, none, none⟩ ∧
      (createAccount s uid d).state.accounts.lookup uid = some b ∧
      (createAccount s uid d).state.transactions = s.transactions) ∧
    (s.accounts.lookup uid = none → 0 ≤ d →
      createAccount s uid d = ⟨⟨s.accounts ++ [(uid, d)], s.transactions⟩, none, none⟩ ∧
      (createAccount s uid d).state.accounts.lookup uid = some d ∧
      (createAccount s uid d).state.transactions = s.transactions) := by
  constructor
  · intro b hb
    have h := @createAccount_existing s uid d (by simp [hb])
    exact ⟨h, by rw [h]; exact hb, by rw [h]⟩
  · intro hnone hd
    have h := createAccount_new hnone hd
    refine ⟨h, ?_, by rw [h]⟩
    rw [h]
    show (s.accounts ++ [(uid, d)]).lookup uid = some d
    rw [lookup_append_none hnone]
    exact lookup_single_self _ _

/-- C10 witness: a row `(1, 40)` survives a `get_account` with a changed
default of 999, and a missing row `2` is created with default 999;
no transactions appear. -/
theorem c10_witness :
    createAccount ⟨[(1, 40)], []⟩ 1 999 = ⟨⟨[(1, 40)], []⟩, none, none⟩ ∧
    (createAccount ⟨[(1, 40)], []⟩ 1 999).state.accounts.lookup 1 = some 40 ∧
    (createAccount ⟨[(1, 40)], []⟩ 2 999).state.accounts.lookup 2 = some 999 ∧
    (createAccount ⟨[(1, 40)], []⟩ 2 999).state.transactions = [] := by
  have h1 := (c10_account_creation_idempotent ⟨[(1, 40)], []⟩ 1 999).1 40 (by decide)
  have h2 := (c10_account_creation_idempotent ⟨[(1, 40)], []⟩ 2 999).2 (by decide) (by decide)
  exact ⟨h1.1, h1.2.1, h2.2.1, h2.2.2⟩

/-- C4 counterexample: on an account with balance 100, a deposit of 50 and
a withdrawal of 50 both at second 1000 restore the balance, but only ONE
transaction is recorded — the withdrawal's insert is ignored because its
derived id collides with the deposit's — refuting "exactly two
transactions are recorded by the pair". -/
theorem c4_counterexample :
    (accountWithdraw (accountDeposit ⟨[(1, 100)], []⟩ 1 50 1000 "d").state
        1 50 1000 "w").state.accounts = [(1, 100)] ∧
    (accountWithdraw (accountDeposit ⟨[(1, 100)], []⟩ 1 50 1000 "d").state
        1 50 1000 "w").state.transactions.length = 1 ∧
    ¬ (accountWithdraw (accountDeposit ⟨[(1, 100)], []⟩ 1 50 1000 "d").state
        1 50 1000 "w").state.transactions.length = 2 := by decide

/-- C4 (amended): deposit of `a ≥ 0` then withdrawal of `a` always restores
the balance and the two created transactions carry deltas `+a` and `-a`;
when the two operations fall in different integer seconds and neither
derived id already occurs in the ledger, exactly two transaction rows are
recorded by the pair. -/
theorem c4_deposit_then_withdraw (s : EconState) (uid : ℕ) (b a : ℤ)
    (ts₁ ts₂ : ℚ) (r₁ r₂ : String)
    (hb : s.accounts.lookup uid = some b) (hb0 : 0 ≤ b) (ha : 0 ≤ a)
    (hfresh₁ : ∀ r ∈ s.transactions, ¬ r.id = mkTxId ts₁ uid a)
    (hfresh₂ : ∀ r ∈ s.transactions, ¬ r.id = mkTxId ts₂ uid (-a))
    (hsec : ¬ pyTrunc ts₁ = pyTrunc ts₂) :
    ∃ s₁ s₂,
      accountDeposit s uid a ts₁ r₁ = ⟨s₁, none, some (mkTx ts₁ uid a r₁)⟩ ∧
      accountWithdraw s₁ uid a ts₂ r₂ = ⟨s₂, none, some (mkTx ts₂ uid (-a) r₂)⟩ ∧
      s₂.accounts.lookup uid = some b ∧
      (mkTx ts₁ uid a r₁).amount = a ∧ (mkTx ts₂ uid (-a) r₂).amount = -a ∧
      s₂.transactions = mkTx ts₂ uid (-a) r₂ :: mkTx ts₁ uid a r₁ :: s.transactions := by
  have hdep := deposit_ok hb (by omega) ha ts₁ r₁
  have htx1 : txInsertOrIgnore (mkTx ts₁ uid a r₁) s.transactions
      = mkTx ts₁ uid a r₁ :: s.transactions := txInsert_fresh hfresh₁
  have hl1 : (updateAcc uid (b + a) s.accounts).lookup uid = some (b + a) :=
    lookup_updateAcc_self _ hb
  have hwd := @withdraw_ok ⟨updateAcc uid (b + a) s.accounts,
      txInsertOrIgnore (mkTx ts₁ uid a r₁) s.transactions⟩ uid (b + a) a
    hl1 ha (by omega) ts₂ r₂
  have hba : b + a - a = b := by ring
  have htx2 : txInsertOrIgnore (mkTx ts₂ uid (-a) r₂)
      (mkTx ts₁ uid a r₁ :: s.transactions)
      = mkTx ts₂ uid (-a) r₂ :: mkTx ts₁ uid a r₁ :: s.transactions := by
    apply txInsert_fresh
    intro r hr
    rcases List.mem_cons.mp hr with h | h
    · subst h
      show ¬ mkTxId ts₁ uid a = mkTxId ts₂ uid (-a)
      simp only [mkTxId, TxId.mk.injEq, not_and]
      intro h1
      exact absurd h1 hsec
    · exact hfresh₂ r h
  refine ⟨⟨updateAcc uid (b + a) s.accounts,
      txInsertOrIgnore (mkTx ts₁ uid a r₁) s.transactions⟩,
    ⟨updateAcc uid (b + a - a) (updateAcc uid (b + a) s.accounts),
      txInsertOrIgnore (mkTx ts₂ uid (-a) r₂)
        (txInsertOrIgnore (mkTx ts₁ uid a r₁) s.transactions)⟩,
    hdep, hwd, ?_, rfl, rfl, ?_⟩
  · show (updateAcc uid (b + a - a) (updateAcc uid (b + a) s.accounts)).lookup uid
      = some b
    rw [hba]
    exact lookup_updateAcc_self _ hl1
  · show txInsertOrIgnore (mkTx ts₂ uid (-a) r₂)
        (txInsertOrIgnore (mkTx ts₁ uid a r₁) s.transactions)
      = mkTx ts₂ uid (-a) r₂ :: mkTx ts₁ uid a r₁ :: s.transactions
    rw [htx1, htx2]

/-- C4 witness: deposit 50 at second 1000 then withdrawal 50 at second
1001 on a balance of 100 restores 100 and records exactly the two rows. -/
theorem c4_witness :
    ∃ s₁ s₂,
      accountDeposit ⟨[(1, 100)], []⟩ 1 50 1000 "d" = ⟨s₁, none, some (mkTx 1000 1 50 "d")⟩ ∧
      accountWithdraw s₁ 1 50 1001 "w" = ⟨s₂, none, some (mkTx 1001 1 (-50) "w")⟩ ∧
      s₂.accounts.lookup 1 = some 100 ∧
      (mkTx 1000 1 50 "d").amount = 50 ∧ (mkTx 1001 1 (-50) "w").amount = -50 ∧
      s₂.transactions = [mkTx 1001 1 (-50) "w", mkTx 1000 1 50 "d"] :=
  c4_deposit_then_withdraw ⟨[(1, 100)], []⟩ 1 100 50 1000 1001 "d" "w"
    (by decide) (by decide) (by decide) (by simp) (by simp) (by decide)

/-- C5 counterexample: user 7 starts at 90, a transaction `t` of +10 at
second 1000 brings the balance to 100, a later deposit of +5 brings it to
105; cancelling `t` then sets the balance to 95, not to 90, the value
immediately before `t` was applied — `cancel` subtracts `t`'s delta from
the CURRENT balance instead of restoring the pre-`t` value. -/
theorem c5_counterexample :
    (accountDeposit ⟨[(7, 90)], []⟩ 7 10 1000 "a").state.accounts = [(7, 100)] ∧
    (accountDeposit ⟨[(7, 90)], []⟩ 7 10 1000 "a").tx = some (mkTx 1000 7 10 "a") ∧
    (accountDeposit (accountDeposit ⟨[(7, 90)], []⟩ 7 10 1000 "a").state
        7 5 1001 "b").state.accounts = [(7, 105)] ∧
    (accountCancel (accountDeposit (accountDeposit ⟨[(7, 90)], []⟩ 7 10 1000 "a").state
        7 5 1001 "b").state 7 (mkTx 1000 7 10 "a") 2000).state.accounts = [(7, 95)] ∧
    ¬ [((7 : ℕ), (95 : ℤ))] = [((7 : ℕ), (90 : ℤ))] := by decide

/-- C5 (amended): `cancel(t)` raises a `ValueError` and leaves the state
untouched when no transaction row of the account matches `t`; otherwise it
creates one new transaction carrying exactly `-t.amount` and sets the
balance to the CURRENT balance minus `t`'s delta (which equals the value
immediately before `t` only when no other net change happened since),
growing the ledger by exactly one row provided the reversal's derived id
is fresh and the adjusted balance is not negative. -/
theorem c5_cancel_reverses_delta (s : EconState) (uid : ℕ) (t : Tx) (ts : ℚ) (b : ℤ) :
    ((¬ s.transactions.any
        (fun r => decide (r.userId = uid ∧ mkTxId r.timestamp r.userId r.amount = t.id))
          = true) →
      accountCancel s uid t ts
        = ⟨s, some (.valueError "La transaction n est pas liee a ce compte"), none⟩) ∧
    ((s.transactions.any
        (fun r => decide (r.userId = uid ∧ mkTxId r.timestamp r.userId r.amount = t.id))
          = true) →
      s.accounts.lookup uid = some b → 0 ≤ b - t.amount →
      (∀ r ∈ s.transactions, ¬ r.id = mkTxId ts uid (-t.amount)) →
      accountCancel s uid t ts
        = ⟨⟨updateAcc uid (b - t.amount) s.accounts,
            mkTx ts uid (-t.amount) "Annule la transaction" :: s.transactions⟩,
            none, some (mkTx ts uid (-t.amount) "Annule la transaction")⟩ ∧
      (updateAcc uid (b - t.amount) s.accounts).lookup uid = some (b - t.amount) ∧
      (mkTx ts uid (-t.amount) "Annule la transaction" :: s.transactions).length
        = s.transactions.length + 1) := by
  constructor
  · intro h
    unfold accountCancel
    rw [if_neg h]
  · intro hmem hb hnneg hfresh
    have hid : mkTx ts uid ((b - t.amount) - b) "Annule la transaction"
        = mkTx ts uid (-t.amount) "Annule la transaction" := by
      rw [sub_sub_cancel_left]
    refine ⟨?_, lookup_updateAcc_self _ hb, by simp⟩
    unfold accountCancel
    rw [if_pos hmem, hb]
    simp only [setBalanceRaw, hb, if_neg (show ¬ b - t.amount < 0 by omega)]
    rw [hid, txInsert_fresh (by simpa using hfresh)]

/-- C5 witness: a transaction of +10 belonging to the account is cancelled
at a later second; the result is one fresh reversal row of -10 and the
balance drops from 105 to 95 (= current minus delta). -/
theorem c5_witness :
    accountCancel ⟨[(7, 105)], [mkTx 1001 7 5 "b", mkTx 1000 7 10 "a"]⟩
        7 (mkTx 1000 7 10 "a") 2000
      = ⟨⟨updateAcc 7 95 [(7, 105)],
          mkTx 2000 7 (-10) "Annule la transaction"
            :: [mkTx 1001 7 5 "b", mkTx 1000 7 10 "a"]⟩,
          none, some (mkTx 2000 7 (-10) "Annule la transaction")⟩ ∧
    (updateAcc 7 95 [(7, 105)]).lookup 7 = some 95 ∧
    accountCancel ⟨[(7, 105)], [mkTx 1001 7 5 "b", mkTx 1000 7 10 "a"]⟩
        7 (mkTx 3000 9 1 "zz") 2000
      = ⟨⟨[(7, 105)], [mkTx 1001 7 5 "b", mkTx 1000 7 10 "a"]⟩,
          some (.valueError "La transaction n est pas liee a ce compte"), none⟩ := by
  have h := c5_cancel_reverses_delta
    ⟨[(7, 105)], [mkTx 1001 7 5 "b", mkTx 1000 7 10 "a"]⟩ 7 (mkTx 1000 7 10 "a") 2000 105
  have h2 := (h.2 (by decide) (by decide) (by decide) (by decide))
  have hneg := (c5_cancel_reverses_delta
    ⟨[(7, 105)], [mkTx 1001 7 5 "b", mkTx 1000 7 10 "a"]⟩ 7 (mkTx 3000 9 1 "zz") 2000 0).1
    (by decide)
  exact ⟨h2.1, h2.2.1, hneg⟩

/-- C6 counterexample: with nominal amount 200, limit 5000 and balance
10000 the decay-reduced amount is -180 ≤ 0, yet the refusal reported is
the balance-cap error, not the distinct "amount too small" one — the cap
check runs first. -/
theorem c6_counterexample :
    dailyReducedAmount 200 5000 10000 ≤ 0 ∧
    (bankDaily ⟨[(1, 10000)], []⟩ 1 200 5000 100 "d" "" 99).outcome
      = .limitReached ∧
    ¬ (bankDaily ⟨[(1, 10000)], []⟩ 1 200 5000 100 "d" "" 99).outcome
      = .tooSmall := by
  refine ⟨?_, ?_, ?_⟩
  · have : dailyReducedAmount 200 5000 10000 = -180 := by
      norm_num [dailyReducedAmount, pyRound, Int.fract]
    omega
  · have hca := @createAccount_existing ⟨[(1, 10000)], []⟩ 1 100 (by decide)
    simp [bankDaily, hca, List.lookup]
  · have hca := @createAccount_existing ⟨[(1, 10000)], []⟩ 1 100 (by decide)
    simp [bankDaily, hca, List.lookup]

/-- C6 (amended): whenever the decay-reduced stipend is zero or less (with
the stipend feature enabled), the `/daily` claim is refused — the state
and the `LastDaily` condition are returned unchanged, so the attempt does
not consume the day's claim; the distinct "amount too small" reply is the
one sent when, in addition, the balance is below the daily limit and the
user has not already claimed today (otherwise the already-claimed or
balance-cap refusal takes precedence). -/
theorem c6_zero_stipend_refused (s : EconState) (uid : ℕ) (A L defaultB bal : ℤ)
    (today last : String) (ts : ℚ)
    (hacc : s.accounts.lookup uid = some bal)
    (hA : 0 < A) (hL : 0 < L)
    (hred : dailyReducedAmount A L bal ≤ 0) :
    (bankDaily s uid A L defaultB today last ts).state = s ∧
    (bankDaily s uid A L defaultB today last ts).lastDaily = last ∧
    (∀ amt, ¬ (bankDaily s uid A L defaultB today last ts).outcome = .granted amt) ∧
    (¬ last = today → bal < L →
      (bankDaily s uid A L defaultB today last ts).outcome = .tooSmall) := by
  have hca := @createAccount_existing s uid defaultB (by simp [hacc])
  have hguard : ¬ (A ≤ 0 ∨ L ≤ 0) := by omega
  by_cases hlast : last = today
  · have heq : bankDaily s uid A L defaultB today last ts = ⟨s, last, .alreadyClaimed⟩ := by
      simp only [bankDaily, hca, if_neg hguard, hacc, if_pos hlast]
    exact ⟨by rw [heq], by rw [heq], fun amt => by rw [heq]; simp,
      fun h _ => absurd hlast h⟩
  · by_cases hbal : bal ≥ L
    · have heq : bankDaily s uid A L defaultB today last ts = ⟨s, last, .limitReached⟩ := by
        simp only [bankDaily, hca, if_neg hguard, hacc, if_neg hlast, if_pos hbal]
      exact ⟨by rw [heq], by rw [heq], fun amt => by rw [heq]; simp,
        fun _ hblt => absurd hbal (by omega)⟩
    · have heq : bankDaily s uid A L defaultB today last ts = ⟨s, last, .tooSmall⟩ := by
        simp only [bankDaily, hca, if_neg hguard, hacc, if_neg hlast, if_neg hbal,
          if_pos hred]
      exact ⟨by rw [heq], by rw [heq], fun amt => by rw [heq]; simp,
        fun _ _ => by rw [heq]⟩

/-- C6 witness: with nominal amount 1, limit 5000 and balance 3000 the
reduced amount rounds to 0; the claim is refused with the "amount too
small" reply, and neither the state nor the `LastDaily` condition moves. -/
theorem c6_witness :
    (bankDaily ⟨[(1, 3000)], []⟩ 1 1 5000 100 "d" "x" 99).state = ⟨[(1, 3000)], []⟩ ∧
    (bankDaily ⟨[(1, 3000)], []⟩ 1 1 5000 100 "d" "x" 99).lastDaily = "x" ∧
    (bankDaily ⟨[(1, 3000)], []⟩ 1 1 5000 100 "d" "x" 99).outcome = .tooSmall := by
  have hred : dailyReducedAmount 1 5000 3000 ≤ 0 := by
    have : dailyReducedAmount 1 5000 3000 = 0 := by
      norm_num [dailyReducedAmount, pyRound, Int.fract]
    omega
  have h := c6_zero_stipend_refused ⟨[(1, 3000)], []⟩ 1 1 5000 100 3000 "d" "x" 99
    (by decide) (by decide) (by decide) hred
  exact ⟨h.1, h.2.1, h.2.2.2 (by decide) (by decide)⟩

/-- C2 counterexample: a confirmed cancellation of a session with NO bets
returns the "Aucun pari" reply before the teardown lines run — the betting
row is not deleted and `get_betting` still returns the session, refuting
"for any set of stakes ... the session row and all bet rows are deleted". -/
theorem c2_counterexample :
    (cancelGamble ⟨[⟨5, "t", ["a", "b"], 0, 1, 9⟩], [], ⟨[], []⟩, [], [5]⟩ 5 100 0).state
      = ⟨[⟨5, "t", ["a", "b"], 0, 1, 9⟩], [], ⟨[], []⟩, [], [5]⟩ ∧
    (cancelGamble ⟨[⟨5, "t", ["a", "b"], 0, 1, 9⟩], [], ⟨[], []⟩, [], [5]⟩ 5 100 0).outcome
      = .noBets ∧
    ¬ getBetting (cancelGamble ⟨[⟨5, "t", ["a", "b"], 0, 1, 9⟩], [], ⟨[], []⟩, [], [5]⟩
        5 100 0).state 5 = none := by decide

/-- C2 (amended): a confirmed cancellation of a session with at least one
bet refunds every bettor who is still a guild member exactly their own
stake (a bettor who left the guild is skipped), then deletes the session
row and every bet row of the channel, so `get_betting` afterwards returns
none; with no bets, nothing is refunded and the session row remains. -/
theorem c2_cancel_refunds_and_purges (st : BotState) (ch : ℕ) (defaultB : ℤ)
    (ts : ℚ) (betting : BettingRow)
    (hbet : getBetting st ch = some betting)
    (hne : (getBets st ch).isEmpty = false)
    (hamts : ∀ b ∈ getBets st ch, 0 ≤ b.amount)
    (hnn : allNonneg st.econ) (hd : 0 ≤ defaultB) :
    (cancelGamble st ch defaultB ts).outcome = .done ∧
    (cancelGamble st ch defaultB ts).error = none ∧
    getBetting (cancelGamble st ch defaultB ts).state ch = none ∧
    getBets (cancelGamble st ch defaultB ts).state ch = [] ∧
    (∀ u v, st.econ.accounts.lookup u = some v →
      (cancelGamble st ch defaultB ts).state.econ.accounts.lookup u
        = some (v + refundTotal st.members u (getBets st ch))) ∧
    (∀ u v b, u ∈ st.members → st.econ.accounts.lookup u = some v →
      (getBets st ch).filter (fun x => decide (x.userId = u)) = [b] →
      (cancelGamble st ch defaultB ts).state.econ.accounts.lookup u
        = some (v + b.amount)) := by
  obtain ⟨h1, h2, h3⟩ := refundAll_spec st.members defaultB
    ("Remboursement du pari " ++ betting.title) ts hd (getBets st ch) st.econ hnn hamts
  obtain ⟨e, he⟩ : ∃ e, refundAll st.econ st.members (getBets st ch) defaultB
      ("Remboursement du pari " ++ betting.title) ts = (e, none) :=
    ⟨(refundAll st.econ st.members (getBets st ch) defaultB
        ("Remboursement du pari " ++ betting.title) ts).1, by rw [← h1]⟩
  rw [he] at h3
  simp only at h3
  have hcg : cancelGamble st ch defaultB ts
      = ⟨{ st with
            econ := e
            bettings := st.bettings.filter (fun b => decide (¬ b.channelId = ch))
            bets := st.bets.filter (fun b => decide (¬ b.channelId = ch)) },
          .done, none⟩ := by
    simp only [cancelGamble, hbet, hne, Bool.false_eq_true, if_false, he]
  have hbalance : ∀ u v, st.econ.accounts.lookup u = some v →
      (cancelGamble st ch defaultB ts).state.econ.accounts.lookup u
        = some (v + refundTotal st.members u (getBets st ch)) := by
    intro u v hv
    rw [hcg]
    exact h3 u v hv
  refine ⟨by rw [hcg], by rw [hcg], ?_, ?_, hbalance, ?_⟩
  · rw [hcg]
    exact find_channel_filtered_none st.bettings ch
  · rw [hcg]
    exact bets_channel_filtered_nil st.bets ch
  · intro u v b hu hv hfilt
    have hrt : refundTotal st.members u (getBets st ch) = b.amount := by
      unfold refundTotal
      have hcongr : (getBets st ch).filter
          (fun x => decide (x.userId = u ∧ x.userId ∈ st.members))
          = (getBets st ch).filter (fun x => decide (x.userId = u)) := by
        apply List.filter_congr
        intro x hx
        by_cases hxu : x.userId = u
        · simp [hxu, hu]
        · simp [hxu]
      rw [hcongr, hfilt]
      simp
    rw [hbalance u v hv, hrt]

/-- C2 witness: a session on channel 5 with stakes 30 (user 1 on "a") and
70 (user 2 on "b"), both users present, starting balances 10 and 20:
cancellation succeeds, user 1 is refunded exactly 30 (10 → 40), and the
session is gone. -/
theorem c2_witness :
    (cancelGamble ⟨[⟨5, "t", ["a", "b"], 0, 1, 9⟩],
        [⟨1, 5, "a", 30⟩, ⟨2, 5, "b", 70⟩],
        ⟨[(1, 10), (2, 20)], []⟩, [1, 2], [5]⟩ 5 100 0).outcome = .done ∧
    getBetting (cancelGamble ⟨[⟨5, "t", ["a", "b"], 0, 1, 9⟩],
        [⟨1, 5, "a", 30⟩, ⟨2, 5, "b", 70⟩],
        ⟨[(1, 10), (2, 20)], []⟩, [1, 2], [5]⟩ 5 100 0).state 5 = none ∧
    (cancelGamble ⟨[⟨5, "t", ["a", "b"], 0, 1, 9⟩],
        [⟨1, 5, "a", 30⟩, ⟨2, 5, "b", 70⟩],
        ⟨[(1, 10), (2, 20)], []⟩, [1, 2], [5]⟩ 5 100 0).state.econ.accounts.lookup 1
      = some 40 := by
  have h := c2_cancel_refunds_and_purges
    ⟨[⟨5, "t", ["a", "b"], 0, 1, 9⟩], [⟨1, 5, "a", 30⟩, ⟨2, 5, "b", 70⟩],
      ⟨[(1, 10), (2, 20)], []⟩, [1, 2], [5]⟩ 5 100 0 ⟨5, "t", ["a", "b"], 0, 1, 9⟩
    (by decide) (by decide) (by decide) (by decide) (by decide)
  refine ⟨h.1, h.2.2.1, ?_⟩
  have hu := h.2.2.2.2.2 1 10 ⟨1, 5, "a", 30⟩ (by decide) (by decide) (by decide)
  simpa using hu

/-- C1: resolving a session whose winning choice carries at least one
stake deposits to every still-present winning bettor exactly the TOTAL POT
(the sum of all stakes across all choices), whatever the winner's own
stake is: the implemented `int(stake * total / stake)` cancels the stake. -/
theorem c1_winner_paid_total_pot (st : BotState) (ch : ℕ) (result : String)
    (defaultB : ℤ) (ts : ℚ) (data : BettingRow) (u : ℕ) (v : ℤ) (w : BetRow)
    (hbet : getBetting st ch = some data)
    (hch : data.channelId ∈ st.channels)
    (hres : strLower result ∈ data.choices)
    (hamts : ∀ b ∈ getBets st ch, 1 ≤ b.amount)
    (hw : w ∈ getBets st ch) (hwc : w.choice = strLower result)
    (hu : u ∈ st.members)
    (huniq : (getBets st ch).filter (fun b => decide (b.userId = u)) = [w])
    (hacc : st.econ.accounts.lookup u = some v)
    (hnn : allNonneg st.econ) (hd : 0 ≤ defaultB) :
    (handleWinners st ch result defaultB ts).outcome = .done ∧
    (handleWinners st ch result defaultB ts).error = none ∧
    (handleWinners st ch result defaultB ts).state.econ.accounts.lookup u
      = some (v + ((getBets st ch).map (fun b => b.amount)).sum) := by
  have hbne : getBets st ch ≠ [] := List.ne_nil_of_mem hw
  have hieF : (getBets st ch).isEmpty = false := by
    cases hbets : getBets st ch with
    | nil => exact absurd hbets hbne
    | cons x xs => rfl
  have htotpos : 0 < ((getBets st ch).map (fun b => b.amount)).sum := by
    apply List.sum_pos
    · intro x hx
      obtain ⟨b, hb, hbx⟩ := List.mem_map.mp hx
      have := hamts b hb
      omega
    · simpa using hbne
  have hwinmem : w ∈ (getBets st ch).filter
      (fun b => decide (b.choice = strLower result)) :=
    List.mem_filter.mpr ⟨hw, by simp [hwc]⟩
  have hwinne : (getBets st ch).filter
      (fun b => decide (b.choice = strLower result)) ≠ [] :=
    List.ne_nil_of_mem hwinmem
  have hwinF : ((getBets st ch).filter
      (fun b => decide (b.choice = strLower result))).isEmpty = false := by
    cases hwin : (getBets st ch).filter (fun b => decide (b.choice = strLower result)) with
    | nil => exact absurd hwin hwinne
    | cons x xs => rfl
  have hwamts : ∀ x ∈ (getBets st ch).filter
      (fun b => decide (b.choice = strLower result)), 1 ≤ x.amount :=
    fun x hx => hamts x (List.mem_of_mem_filter hx)
  obtain ⟨p1, p2, p3⟩ := payWinners_spec st.members
    (((getBets st ch).map (fun b => b.amount)).sum) defaultB
    ("Gains du pari " ++ data.title) ts hd (le_of_lt htotpos)
    ((getBets st ch).filter (fun b => decide (b.choice = strLower result)))
    st.econ hnn hwamts
  obtain ⟨e, he⟩ : ∃ e, payWinners st.econ st.members
      ((getBets st ch).filter (fun b => decide (b.choice = strLower result)))
      (((getBets st ch).map (fun b => b.amount)).sum) defaultB
      ("Gains du pari " ++ data.title) ts = (e, none) :=
    ⟨(payWinners st.econ st.members
        ((getBets st ch).filter (fun b => decide (b.choice = strLower result)))
        (((getBets st ch).map (fun b => b.amount)).sum) defaultB
        ("Gains du pari " ++ data.title) ts).1, by rw [← p1]⟩
  rw [he] at p3
  simp only at p3
  have hhw : handleWinners st ch result defaultB ts
      = ⟨{ st with econ := e }, .done, none⟩ := by
    simp only [handleWinners, hbet, hieF, Bool.false_eq_true, if_false,
      if_neg (not_not_intro hch), if_neg (not_not_intro hres),
      if_neg (show ¬ ((getBets st ch).map (fun b => b.amount)).sum = 0 by omega),
      hwinF, he]
  have hpc : payCount st.members u
      ((getBets st ch).filter (fun b => decide (b.choice = strLower result))) = 1 := by
    unfold payCount
    have hcongr : ((getBets st ch).filter
        (fun b => decide (b.choice = strLower result))).filter
          (fun x => decide (x.userId = u ∧ x.userId ∈ st.members))
        = ((getBets st ch).filter
        (fun b => decide (b.choice = strLower result))).filter
          (fun x => decide (x.userId = u)) := by
      apply List.filter_congr
      intro x hx
      by_cases hxu : x.userId = u
      · simp [hxu, hu]
      · simp [hxu]
    rw [hcongr, List.filter_filter]
    have hswap : (getBets st ch).filter
        (fun a => decide (a.userId = u) && decide (a.choice = strLower result))
        = ((getBets st ch).filter (fun b => decide (b.userId = u))).filter
          (fun b => decide (b.choice = strLower result)) := by
      rw [List.filter_filter]
      exact List.filter_congr (fun x _ => Bool.and_comm _ _)
    rw [hswap, huniq]
    simp [hwc]
  rw [hhw]
  refine ⟨rfl, rfl, ?_⟩
  have := p3 u v hacc
  rw [hpc] at this
  simpa using this

/-- C1 witness: the spec's example — stakes 30 on "heads" (user 1) and 70
on "tails" (user 2), pot 100; resolving "heads" deposits exactly 100 to
user 1 (balance 0 → 100), not the 30-proportional share. -/
theorem c1_witness :
    (handleWinners ⟨[⟨5, "t", ["heads", "tails"], 0, 1, 9⟩],
        [⟨1, 5, "heads", 30⟩, ⟨2, 5, "tails", 70⟩],
        ⟨[(1, 0), (2, 0)], []⟩, [1, 2], [5]⟩ 5 "heads" 100 0).outcome = .done ∧
    (handleWinners ⟨[⟨5, "t", ["heads", "tails"], 0, 1, 9⟩],
        [⟨1, 5, "heads", 30⟩, ⟨2, 5, "tails", 70⟩],
        ⟨[(1, 0), (2, 0)], []⟩, [1, 2], [5]⟩ 5 "heads" 100 0).state.econ.accounts.lookup 1
      = some 100 := by
  have h := c1_winner_paid_total_pot
    ⟨[⟨5, "t", ["heads", "tails"], 0, 1, 9⟩],
      [⟨1, 5, "heads", 30⟩, ⟨2, 5, "tails", 70⟩],
      ⟨[(1, 0), (2, 0)], []⟩, [1, 2], [5]⟩ 5 "heads" 100 0
    ⟨5, "t", ["heads", "tails"], 0, 1, 9⟩ 1 0 ⟨1, 5, "heads", 30⟩
    (by decide) (by decide) (by decide) (by decide) (by decide) (by decide)
    (by decide) (by decide) (by decide) (by decide) (by decide)
  refine ⟨h.1, ?_⟩
  have := h.2.2
  simpa using this

/-- C9 counterexample: an empty dice count does NOT default to 1 — the
term "d6" matches neither `^\d+d\d+$` (at least one leading digit is
required) nor the custom grammar, so the whole expression is rejected
instead of parsing as one six-sided die. -/
theorem c9_counterexample :
    throwTransform "d6" = .error .badFormat ∧
    ¬ throwTransform "d6" = .ok [classicDice 6] := by
  have h0 : throwTransform "d6" = .error .badFormat := rfl
  refine ⟨h0, ?_⟩
  rw [h0]
  intro h
  exact Except.noConfusion h

/-- C9 (amended): "2d6+1d(1,5,10)" parses to exactly three dice (two
uniform 1..6 dice and one custom die with faces 1, 5, 10); a dice count
written as zero defaults to 1 in both grammars (an empty count matches
neither grammar and is rejected); a successful parse never yields more
than 20 dice and a parse whose terms total more than 20 dice is rejected;
any expression containing a term matching neither grammar is rejected. -/
theorem c9_dice_grammar (s : String) :
    (throwTransform "2d6+1d(1,5,10)"
      = .ok [classicDice 6, classicDice 6, ⟨[1, 5, 10]⟩]) ∧
    (∀ t n f, matchNdF t = some (n, f) →
      termDice t = some (List.replicate (if n = 0 then 1 else n) (classicDice f))) ∧
    (∀ t n faces, matchNdF t = none → matchCustom t = some (n, faces) →
      termDice t = some (List.replicate (if n = 0 then 1 else n) (⟨faces⟩ : Dice))) ∧
    (∀ dt, throwTransform s = .ok dt → dt.length ≤ 20) ∧
    (∀ dices, collectDice ((splitPlus s.toList).map stripChars) = some dices →
      dices.length > 20 → throwTransform s = .error .tooMany) ∧
    (∀ t, t ∈ (splitPlus s.toList).map stripChars → termDice t = none →
      throwTransform s = .error .badFormat) := by
  refine ⟨by rfl, ?_, ?_, ?_, ?_, ?_⟩
  · intro t n f h
    unfold termDice
    rw [h]
  · intro t n faces hnone hcust
    unfold termDice
    rw [hnone, hcust]
  · intro dt hok
    simp only [throwTransform] at hok
    cases hcoll : collectDice ((splitPlus s.toList).map stripChars) with
    | none => rw [hcoll] at hok; exact absurd hok (by simp)
    | some dices =>
      rw [hcoll] at hok
      simp only at hok
      by_cases hlen : dices.length > 20
      · rw [if_pos hlen] at hok
        exact absurd hok (by simp)
      · rw [if_neg hlen] at hok
        have hdd : dices = dt := by simpa using hok
        rw [← hdd]
        omega
  · intro dices hcoll hlen
    simp only [throwTransform, hcoll]
    rw [if_pos hlen]
  · intro t hmem hnone
    simp only [throwTransform, collectDice_none_of_mem hmem hnone]

/-- C9 witness: "0d6" contributes one die (zero count defaults to 1),
"2d6+xyz" contains an unmatched term and is rejected, and a 21-die
expression "21d2" is rejected as too many. -/
theorem c9_witness :
    termDice "0d6".toList = some [classicDice 6] ∧
    throwTransform "2d6+xyz" = .error .badFormat ∧
    throwTransform "21d2" = .error .tooMany ∧
    throwTransform "2d6+1d(1,5,10)"
      = .ok [classicDice 6, classicDice 6, ⟨[1, 5, 10]⟩] := by
  have h1 := (c9_dice_grammar "2d6+xyz").2.1 "0d6".toList 0 6 (by decide)
  have h2 := (c9_dice_grammar "2d6+xyz").2.2.2.2.2 "xyz".toList (by decide) (by decide)
  have h3 := (c9_dice_grammar "21d2").2.2.2.2.1 (List.replicate 21 (classicDice 2))
    (by decide) (by decide)
  exact ⟨by simpa using h1, h2, h3, (c9_dice_grammar "x").1⟩

end Analog

